import Mathlib

/-!
A verification development for the branch-diff editor extension.

The definitions below are a shallow embedding of the program's core:

* `getDiffWithConflictDetection` (src/git/gitService.ts) — the diff
  orchestrator, with its substring-based error classification.  The external
  VCS collaborator is modelled as a `GitRepo` record of oracle functions
  returning `Except` values (an `Except.error` models a rejected promise),
  and every embedded operation additionally returns the list of collaborator
  calls it issued, so that caching/no-call properties are statable.
* `buildFolderTree`, `createTreeItems`, `getFolderChildren`, `getRootItems`,
  `setSource`, `setTarget`, `refresh` (src/views/branchTreeProvider.ts) —
  the folder-tree materializer and the provider's selection state.  The
  provider's mutable fields are threaded as an explicit `ProviderState`;
  the in-place `Array.prototype.sort` of `node.files` inside
  `createTreeItems` is modelled by returning the updated node and writing
  it back into the stored tree.  JavaScript truthiness tests on strings
  (`''` is falsy) are modelled by `truthy`.  `localeCompare` is an
  environment-supplied comparison, so it is a parameter `lc` everywhere;
  icon/resourceUri theming is presentation-only and not modelled.
-/

namespace BranchDiff

/-! ## Data model (src/git/types.ts) -/

inductive Status where
  | indexModified | indexAdded | indexDeleted | indexRenamed | indexCopied
  | modified | deleted | untracked | ignored | intentToAdd
  | addedByUs | addedByThem | deletedByUs | deletedByThem
  | bothAdded | bothDeleted | bothModified
deriving DecidableEq, Repr

structure Uri where
  path : String
  fsPath : String
deriving DecidableEq, Repr

structure Change where
  uri : Uri
  status : Status
deriving DecidableEq, Repr

inductive SourceSelection where
  | workingTree
  | branch (branchName : Option String)
deriving DecidableEq, Repr

structure DiffResult where
  changes : List Change
  hasConflict : Bool
  error : Option String
deriving DecidableEq, Repr

/-- Oracle model of the host VCS repository object. -/
structure GitRepo where
  rootFsPath : String
  headName : Option String
  diffWith : String → Except String (List Change)
  diffBetween : String → String → Except String (List Change)

structure GitService where
  repo : Option GitRepo

/-- JavaScript truthiness of a string: the empty string is falsy. -/
def truthy (s : String) : Bool := s != ""

def optTruthy : Option String → Bool
  | some s => truthy s
  | none => false

/-- `getCurrentBranchName`: `repo?.state.HEAD?.name || 'HEAD'`. -/
def getCurrentBranchName (svc : GitService) : String :=
  match svc.repo with
  | some repo =>
    match repo.headName with
    | some n => if truthy n then n else "HEAD"
    | none => "HEAD"
  | none => "HEAD"

/-! ## Error classification (GitService.getDiffWithConflictDetection) -/

/-- Does the haystack start with the needle? (character-exact). -/
def charsLead : List Char → List Char → Bool
  | _, [] => true
  | [], _ :: _ => false
  | h :: hs, n :: ns => h == n && charsLead hs ns

/-- Contiguous-substring test on character lists. -/
def charsContain : List Char → List Char → Bool
  | [], needle => needle.isEmpty
  | h :: hs, needle => charsLead (h :: hs) needle || charsContain hs needle

/-- JavaScript `haystack.includes(needle)`: case-sensitive substring test. -/
def strIncludes (hay needle : String) : Bool := charsContain hay.data needle.data

/-- JavaScript `s.startsWith(pre)`: character-exact prefix test. -/
def strStartsWith (s pre : String) : Bool := charsLead s.data pre.data

/-- JavaScript `s.toLowerCase()` (ASCII range suffices here). -/
def strLower (s : String) : String := String.mk (s.data.map Char.toLower)

/-- Case-insensitive substring containment (used only to state the spec's
claimed classification rule; the program itself never lowercases). -/
def strIncludesCI (hay needle : String) : Bool := strIncludes (strLower hay) (strLower needle)

/-- A single-quote character, kept out of string literals. -/
def quoteChar : String := String.singleton (Char.ofNat 39)

def branchNotFoundMessage (targetBranch : String) : String :=
  "Branch not found: " ++ targetBranch ++ ". Try running " ++ quoteChar ++ "git fetch"
    ++ quoteChar ++ " first."

def hasBadRevisionMarker (errorMessage : String) : Bool :=
  strIncludes errorMessage "bad revision" || strIncludes errorMessage "unknown revision" ||
    strIncludes errorMessage "not a valid object name"

def hasConflictMarker (errorMessage : String) : Bool :=
  strIncludes errorMessage "conflict" || strIncludes errorMessage "CONFLICT" ||
    strIncludes errorMessage "BOTH_MODIFIED"

/-- The catch-block of `getDiffWithConflictDetection`. -/
def classifyDiffError (targetBranch errorMessage : String) : DiffResult :=
  if hasBadRevisionMarker errorMessage then
    { changes := [], hasConflict := false, error := some (branchNotFoundMessage targetBranch) }
  else if hasConflictMarker errorMessage then
    { changes := [], hasConflict := true, error := some "Merge conflict detected between branches" }
  else
    { changes := [], hasConflict := false, error := some errorMessage }

/-- A collaborator call that the embedding records. -/
inductive GitCall where
  | diffWith (ref : String)
  | diffBetween (ref1 ref2 : String)
deriving DecidableEq, Repr

/-- `GitService.getDiffWithConflictDetection`, returning the result together
with the list of collaborator calls issued. -/
def getDiffWithConflictDetection (svc : GitService) (source : SourceSelection)
    (targetBranch : String) : DiffResult × List GitCall :=
  match svc.repo with
  | none => ({ changes := [], hasConflict := false, error := some "No repository found" }, [])
  | some repo =>
    match source with
    | .workingTree =>
      (match repo.diffWith targetBranch with
        | .ok cs => { changes := cs, hasConflict := false, error := none }
        | .error msg => classifyDiffError targetBranch msg,
       [GitCall.diffWith targetBranch])
    | .branch branchName =>
      match branchName with
      | some nm =>
        if truthy nm then
          (match repo.diffBetween targetBranch nm with
            | .ok cs => { changes := cs, hasConflict := false, error := none }
            | .error msg => classifyDiffError targetBranch msg,
           [GitCall.diffBetween targetBranch nm])
        else ({ changes := [], hasConflict := false, error := none }, [])
      | none => ({ changes := [], hasConflict := false, error := none }, [])

/-! ## Folder tree (BranchTreeProvider.buildFolderTree) -/

inductive FolderNode where
  | mk (name : String) (path : String) (children : List FolderNode) (files : List Change)

def FolderNode.name : FolderNode → String
  | .mk n _ _ _ => n

def FolderNode.path : FolderNode → String
  | .mk _ p _ _ => p

def FolderNode.children : FolderNode → List FolderNode
  | .mk _ _ cs _ => cs

def FolderNode.files : FolderNode → List Change
  | .mk _ _ _ fs => fs

/-- `children.get(name)` on the insertion-ordered Map. -/
def findChild (cs : List FolderNode) (nm : String) : Option FolderNode :=
  cs.find? (fun c => c.name == nm)

/-- `children.set(name, node)`: replace in place if present, else append. -/
def setChild (cs : List FolderNode) (nm : String) (node : FolderNode) : List FolderNode :=
  match cs with
  | [] => [node]
  | c :: rest => if c.name == nm then node :: rest else c :: setChild rest nm node

/-- `currentPath = currentPath ? currentPath + '/' + part : part`. -/
def childStep (acc part : String) : String :=
  if truthy acc then acc ++ "/" ++ part else part

/-- The navigate-or-create step of `buildFolderTree`: reuse the existing
child of this name, or create a fresh node carrying the accumulated path. -/
def childOrFresh (node : FolderNode) (part newPath : String) : FolderNode :=
  match findChild node.children part with
  | some ch => ch
  | none => .mk part newPath [] []

/-- The loop body of `buildFolderTree` for one change: walk/create the folder
nodes named by `parts` and append the change to the deepest node's files. -/
def insertChange : FolderNode → String → List String → Change → FolderNode
  | node, _, [], c => .mk node.name node.path node.children (node.files ++ [c])
  | node, currentPath, part :: rest, c =>
    let newPath := childStep currentPath part
    .mk node.name node.path
      (setChild node.children part (insertChange (childOrFresh node part newPath) newPath rest c))
      node.files

/-- Relativization in `buildFolderTree`: strip the repo-root prefix by raw
character comparison, then strip one leading separator if present. -/
def relativizePath (repoRoot fsPath : String) : String :=
  if strStartsWith fsPath repoRoot then
    let r := fsPath.drop repoRoot.length
    if strStartsWith r "/" || strStartsWith r "\\" then r.drop 1 else r
  else fsPath

/-- Split a character list at every separator, keeping empty pieces
(JavaScript `split` semantics). -/
def splitCharList (p : Char → Bool) : List Char → List (List Char)
  | [] => [[]]
  | c :: cs =>
    let rest := splitCharList p cs
    if p c then [] :: rest
    else
      match rest with
      | [] => [[c]]
      | s :: rs => (c :: s) :: rs

/-- JavaScript `s.split(sep)` for a single-character-class separator. -/
def strSplit (s : String) (p : Char → Bool) : List String :=
  (splitCharList p s.data).map String.mk

/-- `relativePath.split(/[/\\]/)`. -/
def splitPath (s : String) : List String := strSplit s (fun ch => ch == '/' || ch == '\\')

/-- The folder segments of a change: split the relativized path and drop the
final segment (the file name). -/
def folderSegments (repoRoot : String) (c : Change) : List String :=
  (splitPath (relativizePath repoRoot c.uri.fsPath)).dropLast

def emptyRoot : FolderNode := .mk "" "" [] []

def buildFolderTree (repoRoot : String) (changes : List Change) : FolderNode :=
  changes.foldl (fun root c => insertChange root "" (folderSegments repoRoot c) c) emptyRoot

/-- Walk a segment list from a node via `children.get`. -/
def walk : FolderNode → List String → Option FolderNode
  | node, [] => some node
  | node, part :: rest =>
    match findChild node.children part with
    | some ch => walk ch rest
    | none => none

def filesAt (t : FolderNode) (q : List String) : List Change :=
  match walk t q with
  | some n => n.files
  | none => []

def pathAt (t : FolderNode) (q : List String) : Option String := (walk t q).map FolderNode.path

/-- The `currentPath` accumulator of `buildFolderTree` over a segment list. -/
def joinPath (cp : String) (parts : List String) : String := parts.foldl childStep cp

/-- Concatenation of names with `/` separators (the spec's reconstruction). -/
def concatWithSlash : List String → String
  | [] => ""
  | [p] => p
  | p :: q :: rest => p ++ "/" ++ concatWithSlash (q :: rest)

/-- `q` is an initial run of `parts`. -/
def listLead : List String → List String → Bool
  | [], _ => true
  | _ :: _, [] => false
  | a :: as, b :: bs => a == b && listLead as bs

/-! ## Display items (BranchTreeItem, createTreeItems) -/

inductive TreeItemType where
  | source | target | separator | folder | file | conflict | info
deriving DecidableEq, Repr

inductive CollapsibleState where
  | none | collapsed | expanded
deriving DecidableEq, Repr

inductive TreeCommand where
  | changeSource
  | changeTarget
  | showFileDiff (change : Change) (target : Option String) (source : SourceSelection)
deriving DecidableEq, Repr

structure TreeItem where
  label : String
  itemType : TreeItemType
  collapsibleState : CollapsibleState
  folderPath : Option String
  change : Option Change
  description : Option String
  command : Option TreeCommand
  tooltip : Option String
deriving DecidableEq, Repr

/-- `setupFileDecoration`: the single-letter status marker. -/
def statusDescription : Status → Option String
  | .indexAdded => some "A"
  | .untracked => some "A"
  | .indexDeleted => some "D"
  | .deleted => some "D"
  | .indexModified => some "M"
  | .modified => some "M"
  | .indexRenamed => some "R"
  | _ => none

/-- The `BranchTreeItem` constructor (contextValue/icon theming omitted). -/
def mkBranchTreeItem (label : String) (ty : TreeItemType) (cs : CollapsibleState)
    (fp : Option String) (ch : Option Change) : TreeItem :=
  { label := label, itemType := ty, collapsibleState := cs, folderPath := fp, change := ch,
    description :=
      match ty, ch with
      | .file, some c => statusDescription c.status
      | _, _ => none,
    command :=
      match ty with
      | .source => some .changeSource
      | .target => some .changeTarget
      | _ => none,
    tooltip := none }

/-- The display label of a file item:
`change.uri.path.split('/').pop() || change.uri.path`. -/
def fileName (c : Change) : String :=
  let last := (strSplit c.uri.path (fun ch => ch == '/')).getLastD ""
  if truthy last then last else c.uri.path

/-- The file-sort key in `createTreeItems`:
`a.uri.path.split('/').pop() || ''` — note the empty-string fallback,
unlike the display label's full-path fallback. -/
def fileSortName (c : Change) : String :=
  let last := (strSplit c.uri.path (fun ch => ch == '/')).getLastD ""
  if truthy last then last else ""

/-- Comparator result test: the JS sort keeps `a` before `b` when the
comparator is not positive. -/
def ordNotGt : Ordering → Bool
  | .gt => false
  | _ => true

def sortFolders (lc : String → String → Ordering) (cs : List FolderNode) : List FolderNode :=
  cs.mergeSort (fun a b => ordNotGt (lc a.name b.name))

def sortChanges (lc : String → String → Ordering) (fs : List Change) : List Change :=
  fs.mergeSort (fun a b => ordNotGt (lc (fileSortName a) (fileSortName b)))

def folderDisplayItem (folder : FolderNode) : TreeItem :=
  mkBranchTreeItem folder.name .folder .expanded (some folder.path) none

def fileDisplayItem (target : Option String) (source : SourceSelection) (c : Change) : TreeItem :=
  let item := mkBranchTreeItem (fileName c) .file .none none (some c)
  { item with
    tooltip := some c.uri.fsPath,
    command := some (.showFileDiff c target source) }

/-- `createTreeItems`: folders sorted by name, then files sorted by file name.
The second component is the node after the in-place sort of `node.files`. -/
def createTreeItems (lc : String → String → Ordering) (target : Option String)
    (source : SourceSelection) (node : FolderNode) : List TreeItem × FolderNode :=
  let sortedFolders := sortFolders lc node.children
  let sortedFiles := sortChanges lc node.files
  (sortedFolders.map folderDisplayItem ++ sortedFiles.map (fileDisplayItem target source),
   .mk node.name node.path node.children sortedFiles)

/-- Write a replacement node back at a walk position (models that the TS
walk hands out a reference into the stored tree). -/
def updateAt : FolderNode → List String → FolderNode → FolderNode
  | _, [], new => new
  | node, part :: rest, new =>
    match findChild node.children part with
    | some ch => .mk node.name node.path (setChild node.children part (updateAt ch rest new))
        node.files
    | none => node

/-! ## Provider state (BranchTreeProvider) -/

structure ProviderState where
  source : SourceSelection
  target : Option String
  diffResult : Option DiffResult
  folderTree : Option FolderNode
  treeDataEvents : Nat

def initialProviderState : ProviderState :=
  { source := .workingTree, target := none, diffResult := none, folderTree := none,
    treeDataEvents := 0 }

/-- `refresh()`: clear caches and fire the tree-data event. -/
def refresh (st : ProviderState) : ProviderState :=
  { st with diffResult := none, folderTree := none, treeDataEvents := st.treeDataEvents + 1 }

def setSource (s : SourceSelection) (st : ProviderState) : ProviderState :=
  refresh { st with source := s, diffResult := none, folderTree := none }

def setTarget (t : String) (st : ProviderState) : ProviderState :=
  refresh { st with target := some t, diffResult := none, folderTree := none }

def getSourceLabel (svc : GitService) (st : ProviderState) : String :=
  match st.source with
  | .workingTree => "Working Tree (" ++ getCurrentBranchName svc ++ ")"
  | .branch bn =>
    match bn with
    | some n => if truthy n then n else "Unknown"
    | none => "Unknown"

def separatorLabel : String := "─────────────────"

def repoRootOf (svc : GitService) : String :=
  match svc.repo with
  | some repo => repo.rootFsPath
  | none => ""

/-- The Source/Target selector items that `getRootItems` always emits. -/
def rootHeaderItems (svc : GitService) (st : ProviderState) : List TreeItem :=
  let targetLabel :=
    match st.target with
    | some t => if truthy t then t else "(click to select)"
    | none => "(click to select)"
  [mkBranchTreeItem ("Source: " ++ getSourceLabel svc st) .source .none none none,
   mkBranchTreeItem ("Target: " ++ targetLabel) .target .none none none]

/-- The tail of `getRootItems` after the diff result is available: separator
plus conflict/error/empty/tree items, and the folder tree to store (if the
tree branch was taken). -/
def renderDiffResult (lc : String → String → Ordering) (repoRoot : String)
    (target : Option String) (source : SourceSelection) (dr : DiffResult) :
    List TreeItem × Option FolderNode :=
  let sep := mkBranchTreeItem separatorLabel .separator .none none none
  if dr.hasConflict then
    let conflictTip :=
      match dr.error with
      | some e => if truthy e then e else "Merge conflict detected between branches"
      | none => "Merge conflict detected between branches"
    let conflictItem :=
      { mkBranchTreeItem "Conflict detected - cannot diff between branches" .conflict
          .none none none with tooltip := some conflictTip }
    ([sep, conflictItem], none)
  else if optTruthy dr.error then
    ([sep, mkBranchTreeItem ("Error: " ++ dr.error.getD "") .conflict .none none none], none)
  else if dr.changes.length == 0 then
    ([sep, mkBranchTreeItem "No changes" .info .none none none], none)
  else
    let n := dr.changes.length
    let countLabel := toString n ++ " file" ++ (if n > 1 then "s" else "") ++ " changed"
    let countItem := mkBranchTreeItem countLabel .info .none none none
    let tree := buildFolderTree repoRoot dr.changes
    let pair := createTreeItems lc target source tree
    ([sep, countItem] ++ pair.1, some pair.2)

/-- `getRootItems`: items, successor state, and collaborator calls issued.
With a falsy target only the two selector items are returned and no diff is
fetched; otherwise the cached `DiffResult` is used when present, fetched
(and stored) when absent, and rendered by `renderDiffResult`. -/
def getRootItems (lc : String → String → Ordering) (svc : GitService) (st : ProviderState) :
    List TreeItem × ProviderState × List GitCall :=
  let items0 := rootHeaderItems svc st
  match st.target with
  | none => (items0, st, [])
  | some t =>
    if truthy t then
      let fetched :=
        match st.diffResult with
        | some dr => (dr, st, ([] : List GitCall))
        | none =>
          let pair := getDiffWithConflictDetection svc st.source t
          (pair.1, { st with diffResult := some pair.1 }, pair.2)
      let rendered := renderDiffResult lc (repoRootOf svc) st.target st.source fetched.1
      (items0 ++ rendered.1,
       match rendered.2 with
       | some tr => { fetched.2.1 with folderTree := some tr }
       | none => fetched.2.1,
       fetched.2.2)
    else (items0, st, [])

/-- `getFolderChildren`: walk the '/'-split segments from the root of the
stored tree; empty result if the tree is absent or a segment is missing. -/
def getFolderChildren (lc : String → String → Ordering) (st : ProviderState)
    (folderPath : String) : List TreeItem × ProviderState :=
  match st.folderTree with
  | none => ([], st)
  | some tree =>
    let parts := strSplit folderPath (fun ch => ch == '/')
    match walk tree parts with
    | none => ([], st)
    | some node =>
      let pair := createTreeItems lc st.target st.source node
      (pair.1, { st with folderTree := some (updateAt tree parts pair.2) })

/-- Lexicographic character comparison. -/
def charsCmp : List Char → List Char → Ordering
  | [], [] => .eq
  | [], _ :: _ => .lt
  | _ :: _, [] => .gt
  | a :: as, b :: bs =>
    match compare a.toNat b.toNat with
    | .eq => charsCmp as bs
    | o => o

/-- A total, antisymmetric instantiation of `localeCompare`, used by the
concrete witnesses. -/
def lcStd (a b : String) : Ordering := charsCmp a.data b.data

/-! ## Concrete fixtures (the spec's end-to-end scenario) -/

def sampleA : Change := ⟨⟨"/repo/src/a.ts", "/repo/src/a.ts"⟩, .modified⟩

def sampleB : Change := ⟨⟨"/repo/src/sub/b.ts", "/repo/src/sub/b.ts"⟩, .indexAdded⟩

def sampleR : Change := ⟨⟨"/repo/README.md", "/repo/README.md"⟩, .deleted⟩

def sampleChanges : List Change := [sampleA, sampleB, sampleR]

def sampleRepo : GitRepo :=
  ⟨"/repo", some "feature", fun _ => .ok sampleChanges, fun _ _ => .ok sampleChanges⟩

def sampleService : GitService := ⟨some sampleRepo⟩

/-- A service whose repository fails every diff call with `msg`. -/
def errService (msg : String) : GitService :=
  ⟨some ⟨"/repo", none, fun _ => .error msg, fun _ _ => .error msg⟩⟩

def sampleTree : FolderNode := buildFolderTree "/repo" sampleChanges

def sampleState : ProviderState := setTarget "main" initialProviderState

/-- The provider state after a successful root render: diff cached, tree
materialized. -/
def sampleLoadedState : ProviderState :=
  { sampleState with
    diffResult := some { changes := sampleChanges, hasConflict := false, error := none },
    folderTree := some sampleTree }

/-! ## Basic lemmas about error classification and the diff orchestrator -/

theorem classifyDiffError_changes_nil (t m : String) : (classifyDiffError t m).changes = [] := by
  unfold classifyDiffError
  split
  · rfl
  · split <;> rfl

theorem classifyDiffError_error_isSome (t m : String) :
    ((classifyDiffError t m).error).isSome = true := by
  unfold classifyDiffError
  split
  · rfl
  · split <;> rfl

/-- On any failing collaborator outcome the orchestrator returns exactly the
classified `DiffResult`. -/
theorem getDiff_failure_classify (svc : GitService) (repo : GitRepo) (h : svc.repo = some repo)
    (source : SourceSelection) (target msg : String)
    (hfail : (source = .workingTree ∧ repo.diffWith target = .error msg)
      ∨ ∃ nm, source = .branch (some nm) ∧ truthy nm = true
          ∧ repo.diffBetween target nm = .error msg) :
    (getDiffWithConflictDetection svc source target).1 = classifyDiffError target msg := by
  rcases hfail with ⟨hs, hf⟩ | ⟨nm, hs, hnm, hf⟩
  · subst hs
    simp [getDiffWithConflictDetection, h, hf]
  · subst hs
    simp [getDiffWithConflictDetection, h, hnm, hf]

/-! ## Claim theorems: diff orchestrator (C7, C8, C9, C2) -/

/-- Claim C7: the diff fetch dispatches on the source selection: a
WorkingTree source issues exactly `diffWith(target)`, and a Branch(name)
source (with a truthy name) issues exactly `diffBetween(target, name)` with
the target as the first (base) argument; on success the returned changes
are the collaborator's. -/
theorem getDiff_dispatch (svc : GitService) (repo : GitRepo) (h : svc.repo = some repo)
    (target : String) :
    ((getDiffWithConflictDetection svc .workingTree target).2 = [GitCall.diffWith target]
      ∧ ∀ cs, repo.diffWith target = .ok cs →
          (getDiffWithConflictDetection svc .workingTree target).1
            = { changes := cs, hasConflict := false, error := none })
    ∧ ∀ nm, truthy nm = true →
        ((getDiffWithConflictDetection svc (.branch (some nm)) target).2
            = [GitCall.diffBetween target nm]
          ∧ ∀ cs, repo.diffBetween target nm = .ok cs →
              (getDiffWithConflictDetection svc (.branch (some nm)) target).1
                = { changes := cs, hasConflict := false, error := none }) := by
  refine ⟨⟨?_, ?_⟩, ?_⟩
  · simp [getDiffWithConflictDetection, h]
  · intro cs hcs
    simp [getDiffWithConflictDetection, h, hcs]
  · intro nm hnm
    refine ⟨?_, ?_⟩
    · simp [getDiffWithConflictDetection, h, hnm]
    · intro cs hcs
      simp [getDiffWithConflictDetection, h, hnm, hcs]

theorem getDiff_dispatch_witness :
    sampleService.repo = some sampleRepo
    ∧ (getDiffWithConflictDetection sampleService .workingTree "main").2
        = [GitCall.diffWith "main"] :=
  ⟨rfl, (getDiff_dispatch sampleService sampleRepo rfl "main").1.1⟩

/-- Claim C8: the orchestrator never throws — it is a total function into
`DiffResult` — and every collaborator failure is recovered at the boundary
into a `DiffResult` with empty changes and a present (`isSome`) message;
absence of a repository is likewise a returned message, not an error. -/
theorem getDiff_recovers_failures (svc : GitService) (source : SourceSelection)
    (target : String) :
    (svc.repo = none →
        (getDiffWithConflictDetection svc source target).1
          = { changes := [], hasConflict := false, error := some "No repository found" })
    ∧ ∀ repo msg, svc.repo = some repo →
        ((source = .workingTree ∧ repo.diffWith target = .error msg)
          ∨ ∃ nm, source = .branch (some nm) ∧ truthy nm = true
              ∧ repo.diffBetween target nm = .error msg) →
        (getDiffWithConflictDetection svc source target).1 = classifyDiffError target msg
          ∧ ((getDiffWithConflictDetection svc source target).1).changes = []
          ∧ (((getDiffWithConflictDetection svc source target).1).error).isSome = true := by
  constructor
  · intro h
    simp [getDiffWithConflictDetection, h]
  · intro repo msg h hfail
    have heq := getDiff_failure_classify svc repo h source target msg hfail
    refine ⟨heq, ?_, ?_⟩
    · rw [heq]
      exact classifyDiffError_changes_nil target msg
    · rw [heq]
      exact classifyDiffError_error_isSome target msg

theorem getDiff_recovers_failures_witness :
    (errService "network timeout").repo
        = some ⟨"/repo", none, fun _ => .error "network timeout", fun _ _ => .error "network timeout"⟩
    ∧ ((getDiffWithConflictDetection (errService "network timeout") .workingTree "main").1
          = classifyDiffError "main" "network timeout"
        ∧ ((getDiffWithConflictDetection (errService "network timeout") .workingTree "main").1).changes
            = []
        ∧ ((((getDiffWithConflictDetection (errService "network timeout") .workingTree "main").1).error)).isSome
            = true) :=
  ⟨rfl,
   (getDiff_recovers_failures (errService "network timeout") .workingTree "main").2
     ⟨"/repo", none, fun _ => .error "network timeout", fun _ _ => .error "network timeout"⟩
     "network timeout" rfl (Or.inl ⟨rfl, rfl⟩)⟩

/-- Claim C9: classification precedence — a failure message matching both a
bad-revision phrase and a conflict phrase is classified as bad-revision
(branch-not-found with hasConflict = false), because the bad-revision check
is evaluated first. -/
theorem badRevision_wins_over_conflict (svc : GitService) (repo : GitRepo)
    (h : svc.repo = some repo) (target msg : String)
    (hfail : repo.diffWith target = .error msg)
    (hbad : hasBadRevisionMarker msg = true) (hconf : hasConflictMarker msg = true) :
    (getDiffWithConflictDetection svc .workingTree target).1
      = { changes := [], hasConflict := false,
          error := some (branchNotFoundMessage target) } := by
  have heq := getDiff_failure_classify svc repo h .workingTree target msg (Or.inl ⟨rfl, hfail⟩)
  rw [heq]
  simp [classifyDiffError, hbad]

theorem badRevision_wins_over_conflict_witness :
    hasBadRevisionMarker "unknown revision CONFLICT" = true
    ∧ hasConflictMarker "unknown revision CONFLICT" = true
    ∧ (getDiffWithConflictDetection (errService "unknown revision CONFLICT") .workingTree
          "feature").1
        = { changes := [], hasConflict := false,
            error := some (branchNotFoundMessage "feature") } :=
  ⟨by decide, by decide,
   badRevision_wins_over_conflict (errService "unknown revision CONFLICT")
     ⟨"/repo", none, fun _ => .error "unknown revision CONFLICT",
      fun _ _ => .error "unknown revision CONFLICT"⟩
     rfl "feature" "unknown revision CONFLICT" rfl (by decide) (by decide)⟩

/-- Claim C2 (counterexample): the classification is NOT case-insensitive.
The failure message "BAD REVISION" contains "bad revision" up to case, yet
the orchestrator passes it through verbatim instead of producing the
branch-not-found result the claim requires. -/
theorem classification_not_case_insensitive :
    strIncludesCI "BAD REVISION" "bad revision" = true
    ∧ (getDiffWithConflictDetection (errService "BAD REVISION") .workingTree "feature").1
        = { changes := [], hasConflict := false, error := some "BAD REVISION" }
    ∧ ¬ (getDiffWithConflictDetection (errService "BAD REVISION") .workingTree "feature").1
          = { changes := [], hasConflict := false,
              error := some (branchNotFoundMessage "feature") } := by
  refine ⟨by decide, by decide, by decide⟩

/-- Claim C2 (amended): when the collaborator diff call fails, the error
message is classified by CASE-SENSITIVE substring match: a message
containing "bad revision", "unknown revision" or "not a valid object name"
yields empty changes, hasConflict = false and the branch-not-found/fetch
message; otherwise one containing "conflict", "CONFLICT" or "BOTH_MODIFIED"
yields empty changes, hasConflict = true and a fixed message; any other
message is passed through verbatim with hasConflict = false. -/
theorem classification_case_sensitive (svc : GitService) (repo : GitRepo)
    (h : svc.repo = some repo) (source : SourceSelection) (target msg : String)
    (hfail : (source = .workingTree ∧ repo.diffWith target = .error msg)
      ∨ ∃ nm, source = .branch (some nm) ∧ truthy nm = true
          ∧ repo.diffBetween target nm = .error msg) :
    (hasBadRevisionMarker msg = true →
        (getDiffWithConflictDetection svc source target).1
          = { changes := [], hasConflict := false,
              error := some (branchNotFoundMessage target) })
    ∧ (hasBadRevisionMarker msg = false → hasConflictMarker msg = true →
        (getDiffWithConflictDetection svc source target).1
          = { changes := [], hasConflict := true,
              error := some "Merge conflict detected between branches" })
    ∧ (hasBadRevisionMarker msg = false → hasConflictMarker msg = false →
        (getDiffWithConflictDetection svc source target).1
          = { changes := [], hasConflict := false, error := some msg }) := by
  have heq := getDiff_failure_classify svc repo h source target msg hfail
  refine ⟨?_, ?_, ?_⟩
  · intro hbad
    rw [heq]
    simp [classifyDiffError, hbad]
  · intro hbad hconf
    rw [heq]
    simp [classifyDiffError, hbad, hconf]
  · intro hbad hconf
    rw [heq]
    simp [classifyDiffError, hbad, hconf]

theorem classification_case_sensitive_witness :
    hasBadRevisionMarker "unknown revision xyz" = true
    ∧ (getDiffWithConflictDetection (errService "unknown revision xyz") .workingTree "main").1
        = { changes := [], hasConflict := false, error := some (branchNotFoundMessage "main") }
    ∧ hasBadRevisionMarker "CONFLICT (content)" = false
    ∧ hasConflictMarker "CONFLICT (content)" = true
    ∧ (getDiffWithConflictDetection (errService "CONFLICT (content)") .workingTree "main").1
        = { changes := [], hasConflict := true,
            error := some "Merge conflict detected between branches" }
    ∧ hasConflictMarker "network timeout" = false
    ∧ (getDiffWithConflictDetection (errService "network timeout") .workingTree "main").1
        = { changes := [], hasConflict := false, error := some "network timeout" } :=
  ⟨by decide,
   (classification_case_sensitive (errService "unknown revision xyz")
     ⟨"/repo", none, fun _ => .error "unknown revision xyz",
      fun _ _ => .error "unknown revision xyz"⟩ rfl .workingTree "main" "unknown revision xyz"
     (Or.inl ⟨rfl, rfl⟩)).1 (by decide),
   by decide, by decide,
   (classification_case_sensitive (errService "CONFLICT (content)")
     ⟨"/repo", none, fun _ => .error "CONFLICT (content)",
      fun _ _ => .error "CONFLICT (content)"⟩ rfl .workingTree "main" "CONFLICT (content)"
     (Or.inl ⟨rfl, rfl⟩)).2.1 (by decide) (by decide),
   by decide,
   (classification_case_sensitive (errService "network timeout")
     ⟨"/repo", none, fun _ => .error "network timeout",
      fun _ _ => .error "network timeout"⟩ rfl .workingTree "main" "network timeout"
     (Or.inl ⟨rfl, rfl⟩)).2.2 (by decide) (by decide)⟩

/-! ## Claim theorems: path relativization (C10) -/

/-- Claim C10: relativization strips the repo-root prefix by raw character
comparison with no path-component-boundary requirement: whenever the path
starts with the root string and the remainder does not begin with a
separator, the remainder itself is used as the relative path — concretely,
"/repository/x.ts" under root "/repo" relativizes to "sitory/x.ts" and the
file lands under a spurious "sitory" folder. -/
theorem relativize_no_boundary_check :
    (∀ repoRoot p, strStartsWith p repoRoot = true →
        (strStartsWith (p.drop repoRoot.length) "/"
          || strStartsWith (p.drop repoRoot.length) "\\") = false →
        relativizePath repoRoot p = p.drop repoRoot.length)
    ∧ relativizePath "/repo" "/repository/x.ts" = "sitory/x.ts"
    ∧ folderSegments "/repo" ⟨⟨"/repository/x.ts", "/repository/x.ts"⟩, .modified⟩ = ["sitory"]
    ∧ filesAt (buildFolderTree "/repo" [⟨⟨"/repository/x.ts", "/repository/x.ts"⟩, .modified⟩])
        ["sitory"]
        = [⟨⟨"/repository/x.ts", "/repository/x.ts"⟩, .modified⟩] := by
  refine ⟨?_, by decide, by decide, by decide⟩
  intro root p h1 h2
  simp [relativizePath, h1, h2]

theorem relativize_no_boundary_check_witness :
    strStartsWith "/repository/x.ts" "/repo" = true
    ∧ (strStartsWith ("/repository/x.ts".drop "/repo".length) "/"
        || strStartsWith ("/repository/x.ts".drop "/repo".length) "\\") = false
    ∧ relativizePath "/repo" "/repository/x.ts" = "/repository/x.ts".drop "/repo".length :=
  ⟨by decide, by decide,
   relativize_no_boundary_check.1 "/repo" "/repository/x.ts" (by decide) (by decide)⟩

/-! ## Folder-tree lemmas (towards C1) -/

@[simp]
theorem FolderNode.name_mk (n p : String) (cs : List FolderNode) (fs : List Change) :
    (FolderNode.mk n p cs fs).name = n := rfl

@[simp]
theorem FolderNode.path_mk (n p : String) (cs : List FolderNode) (fs : List Change) :
    (FolderNode.mk n p cs fs).path = p := rfl

@[simp]
theorem FolderNode.children_mk (n p : String) (cs : List FolderNode) (fs : List Change) :
    (FolderNode.mk n p cs fs).children = cs := rfl

@[simp]
theorem FolderNode.files_mk (n p : String) (cs : List FolderNode) (fs : List Change) :
    (FolderNode.mk n p cs fs).files = fs := rfl

theorem insertChange_name (t : FolderNode) (cp : String) (parts : List String) (c : Change) :
    (insertChange t cp parts c).name = t.name := by
  cases parts <;> rfl

theorem findChild_name (cs : List FolderNode) (nm : String) (ch : FolderNode)
    (h : findChild cs nm = some ch) : ch.name = nm := by
  have := List.find?_some h
  exact eq_of_beq this

theorem findChild_setChild_self (cs : List FolderNode) (nm : String) (node : FolderNode)
    (h : node.name = nm) : findChild (setChild cs nm node) nm = some node := by
  induction cs with
  | nil =>
    simp [setChild, findChild, List.find?, h]
  | cons c rest ih =>
    by_cases hc : c.name == nm
    · simp [setChild, hc, findChild, List.find?, h]
    · simp only [setChild, hc, if_false, Bool.false_eq_true]
      simp only [findChild, List.find?, hc]
      exact ih

theorem findChild_setChild_ne (cs : List FolderNode) (nm nm' : String) (node : FolderNode)
    (hne : nm' ≠ nm) (h : node.name = nm) :
    findChild (setChild cs nm node) nm' = findChild cs nm' := by
  have hnode : (node.name == nm') = false := by
    rw [h]
    exact beq_eq_false_iff_ne.mpr (Ne.symm hne)
  induction cs with
  | nil =>
    simp [setChild, findChild, List.find?, hnode]
  | cons c rest ih =>
    by_cases hc : c.name == nm
    · have hcnm : c.name = nm := eq_of_beq hc
      have hc' : (c.name == nm') = false := by
        rw [hcnm]
        exact beq_eq_false_iff_ne.mpr (Ne.symm hne)
      simp [setChild, hc, findChild, List.find?, hnode, hc']
    · simp only [setChild, hc, if_false, Bool.false_eq_true]
      simp only [findChild, List.find?] at ih ⊢
      cases hcq : c.name == nm' <;> simp [hcq, ih]

theorem filesAt_nil (t : FolderNode) : filesAt t [] = t.files := rfl

theorem filesAt_cons_found (t : FolderNode) (p : String) (q : List String) (ch : FolderNode)
    (h : findChild t.children p = some ch) : filesAt t (p :: q) = filesAt ch q := by
  simp [filesAt, walk, h]

theorem filesAt_cons_missing (t : FolderNode) (p : String) (q : List String)
    (h : findChild t.children p = none) : filesAt t (p :: q) = [] := by
  simp [filesAt, walk, h]

theorem filesAt_fresh (nm np : String) (q : List String) :
    filesAt (FolderNode.mk nm np [] []) q = [] := by
  cases q <;> simp [filesAt, walk, findChild, List.find?]

theorem pathAt_nil (t : FolderNode) : pathAt t [] = some t.path := rfl

theorem pathAt_cons_found (t : FolderNode) (p : String) (q : List String) (ch : FolderNode)
    (h : findChild t.children p = some ch) : pathAt t (p :: q) = pathAt ch q := by
  simp [pathAt, walk, h]

theorem pathAt_cons_missing (t : FolderNode) (p : String) (q : List String)
    (h : findChild t.children p = none) : pathAt t (p :: q) = none := by
  simp [pathAt, walk, h]

theorem pathAt_fresh_cons (nm np r : String) (qs : List String) :
    pathAt (FolderNode.mk nm np [] []) (r :: qs) = none := by
  simp [pathAt, walk, findChild, List.find?]

theorem childOrFresh_name (t : FolderNode) (part np : String) :
    (childOrFresh t part np).name = part := by
  unfold childOrFresh
  cases hfc : findChild t.children part with
  | some ch => simpa using findChild_name t.children part ch hfc
  | none => simp

theorem filesAt_childOrFresh (t : FolderNode) (p np : String) (qs : List String) :
    filesAt (childOrFresh t p np) qs = filesAt t (p :: qs) := by
  unfold childOrFresh
  cases hfc : findChild t.children p with
  | some ch =>
    rw [filesAt_cons_found t p qs ch hfc]
  | none =>
    rw [filesAt_cons_missing t p qs hfc, filesAt_fresh]

theorem insertChange_unfold_cons (t : FolderNode) (cp p : String) (rest : List String)
    (c : Change) :
    insertChange t cp (p :: rest) c
      = FolderNode.mk t.name t.path
          (setChild t.children p
            (insertChange (childOrFresh t p (childStep cp p)) (childStep cp p) rest c))
          t.files := rfl

/-- Where the files land: inserting a change at `parts` appends it to the
node at `parts` and leaves every other node's files unchanged. -/
theorem filesAt_insertChange (parts : List String) :
    ∀ (t : FolderNode) (cp : String) (c : Change) (q : List String),
      filesAt (insertChange t cp parts c) q
        = if q = parts then filesAt t q ++ [c] else filesAt t q := by
  induction parts with
  | nil =>
    intro t cp c q
    cases q with
    | nil => simp [insertChange, filesAt_nil]
    | cons r qs =>
      rw [if_neg (by simp)]
      cases hfr : findChild t.children r with
      | some ch =>
        rw [filesAt_cons_found _ _ _ ch (by simpa [insertChange] using hfr)]
        rw [filesAt_cons_found t r qs ch hfr]
      | none =>
        rw [filesAt_cons_missing _ _ _ (by simpa [insertChange] using hfr)]
        rw [filesAt_cons_missing t r qs hfr]
  | cons p rest ih =>
    intro t cp c q
    have hXname : (insertChange (childOrFresh t p (childStep cp p)) (childStep cp p)
        rest c).name = p := by
      rw [insertChange_name, childOrFresh_name]
    cases q with
    | nil =>
      rw [if_neg (by simp), insertChange_unfold_cons, filesAt_nil, FolderNode.files_mk,
        filesAt_nil]
    | cons r qs =>
      by_cases hrp : r = p
      · subst hrp
        rw [insertChange_unfold_cons]
        rw [filesAt_cons_found _ _ _ _ (by
          rw [FolderNode.children_mk]
          exact findChild_setChild_self _ _ _ hXname)]
        rw [ih, filesAt_childOrFresh]
        by_cases hq : qs = rest
        · subst hq
          rw [if_pos rfl, if_pos rfl]
        · rw [if_neg hq, if_neg (by simpa using hq)]
      · rw [insertChange_unfold_cons, if_neg (by simp [hrp])]
        have hne : findChild (setChild t.children p
              (insertChange (childOrFresh t p (childStep cp p)) (childStep cp p) rest c)) r
            = findChild t.children r :=
          findChild_setChild_ne _ _ _ _ hrp hXname
        cases hfr : findChild t.children r with
        | some ch2 =>
          rw [filesAt_cons_found _ _ _ ch2 (by rw [FolderNode.children_mk, hne, hfr])]
          rw [filesAt_cons_found t r qs ch2 hfr]
        | none =>
          rw [filesAt_cons_missing _ _ _ (by rw [FolderNode.children_mk, hne, hfr])]
          rw [filesAt_cons_missing t r qs hfr]

/-- Where the paths come from: inserting at `parts` preserves every existing
node's stored path and creates the missing nodes along `parts` with the
accumulated `/`-joined path. -/
theorem pathAt_insertChange (parts : List String) :
    ∀ (t : FolderNode) (cp : String) (c : Change) (q : List String),
      pathAt (insertChange t cp parts c) q
        = if (pathAt t q).isSome then pathAt t q
          else if listLead q parts then some (joinPath cp q) else none := by
  induction parts with
  | nil =>
    intro t cp c q
    cases q with
    | nil => simp [insertChange, pathAt_nil]
    | cons r qs =>
      have hsame : pathAt (insertChange t cp [] c) (r :: qs) = pathAt t (r :: qs) := by
        cases hfr : findChild t.children r with
        | some ch =>
          rw [pathAt_cons_found _ _ _ ch (by simpa [insertChange] using hfr)]
          rw [pathAt_cons_found t r qs ch hfr]
        | none =>
          rw [pathAt_cons_missing _ _ _ (by simpa [insertChange] using hfr)]
          rw [pathAt_cons_missing t r qs hfr]
      rw [hsame]
      by_cases hs : (pathAt t (r :: qs)).isSome
      · rw [if_pos hs]
      · rw [if_neg hs]
        simp only [listLead, Bool.false_eq_true, if_false]
        exact Option.not_isSome_iff_eq_none.mp hs
  | cons p rest ih =>
    intro t cp c q
    have hXname : (insertChange (childOrFresh t p (childStep cp p)) (childStep cp p)
        rest c).name = p := by
      rw [insertChange_name, childOrFresh_name]
    cases q with
    | nil => simp [insertChange, pathAt_nil]
    | cons r qs =>
      by_cases hrp : r = p
      · subst hrp
        rw [insertChange_unfold_cons]
        rw [pathAt_cons_found _ _ _ _ (by
          rw [FolderNode.children_mk]
          exact findChild_setChild_self _ _ _ hXname)]
        rw [ih]
        have hlead : listLead (r :: qs) (r :: rest) = listLead qs rest := by
          simp [listLead]
        have hjoin : joinPath cp (r :: qs) = joinPath (childStep cp r) qs := rfl
        rw [hlead, hjoin]
        unfold childOrFresh
        cases hfc : findChild t.children r with
        | some ch =>
          rw [pathAt_cons_found t r qs ch hfc]
        | none =>
          rw [pathAt_cons_missing t r qs hfc]
          simp only [Option.isSome_none, Bool.false_eq_true, if_false]
          cases qs with
          | nil =>
            rw [pathAt_nil, FolderNode.path_mk]
            simp [listLead, joinPath]
          | cons r' qs' =>
            rw [pathAt_fresh_cons]
            simp only [Option.isSome_none, Bool.false_eq_true, if_false]
      · rw [insertChange_unfold_cons]
        have hne : findChild (setChild t.children p
              (insertChange (childOrFresh t p (childStep cp p)) (childStep cp p) rest c)) r
            = findChild t.children r :=
          findChild_setChild_ne _ _ _ _ hrp hXname
        have hsame : pathAt (FolderNode.mk t.name t.path
              (setChild t.children p
                (insertChange (childOrFresh t p (childStep cp p)) (childStep cp p) rest c))
              t.files) (r :: qs)
            = pathAt t (r :: qs) := by
          cases hfr : findChild t.children r with
          | some ch2 =>
            rw [pathAt_cons_found _ _ _ ch2 (by rw [FolderNode.children_mk, hne, hfr])]
            rw [pathAt_cons_found t r qs ch2 hfr]
          | none =>
            rw [pathAt_cons_missing _ _ _ (by rw [FolderNode.children_mk, hne, hfr])]
            rw [pathAt_cons_missing t r qs hfr]
        rw [hsame]
        by_cases hs : (pathAt t (r :: qs)).isSome
        · rw [if_pos hs]
        · rw [if_neg hs]
          have hl : listLead (r :: qs) (p :: rest) = false := by
            simp [listLead, beq_eq_false_iff_ne.mpr hrp]
          rw [hl]
          simp only [Bool.false_eq_true, if_false]
          exact Option.not_isSome_iff_eq_none.mp hs

/-- `buildFolderTree` characterization: the node at `q` holds exactly the
input changes whose folder segments are `q`. -/
theorem filesAt_foldl (repoRoot : String) (l : List Change) :
    ∀ (acc : FolderNode) (q : List String),
      filesAt (l.foldl (fun root c => insertChange root "" (folderSegments repoRoot c) c) acc) q
        = filesAt acc q ++ l.filter (fun c => folderSegments repoRoot c == q) := by
  induction l with
  | nil => intro acc q; simp
  | cons c l ih =>
    intro acc q
    rw [List.foldl_cons, ih, filesAt_insertChange]
    by_cases hq : q = folderSegments repoRoot c
    · rw [if_pos hq]
      have hbeq : (folderSegments repoRoot c == q) = true := by simp [hq]
      rw [List.filter_cons, if_pos hbeq]
      simp
    · rw [if_neg hq]
      have hbeq : (folderSegments repoRoot c == q) = false :=
        beq_eq_false_iff_ne.mpr (Ne.symm hq)
      rw [List.filter_cons, if_neg (by simp [hbeq])]

theorem filesAt_buildFolderTree (repoRoot : String) (changes : List Change) (q : List String) :
    filesAt (buildFolderTree repoRoot changes) q
      = changes.filter (fun c => folderSegments repoRoot c == q) := by
  unfold buildFolderTree
  rw [filesAt_foldl]
  have : filesAt emptyRoot q = [] := by
    cases q <;> simp [emptyRoot, filesAt, walk, findChild, List.find?]
  rw [this, List.nil_append]

theorem pathAt_buildFolderTree (repoRoot : String) (changes : List Change) (q : List String) :
    pathAt (buildFolderTree repoRoot changes) q = none
      ∨ pathAt (buildFolderTree repoRoot changes) q = some (joinPath "" q) := by
  unfold buildFolderTree
  have main : ∀ (l : List Change) (acc : FolderNode),
      (∀ q', pathAt acc q' = none ∨ pathAt acc q' = some (joinPath "" q')) →
      ∀ q', pathAt (l.foldl (fun root c => insertChange root "" (folderSegments repoRoot c) c)
          acc) q' = none
        ∨ pathAt (l.foldl (fun root c => insertChange root "" (folderSegments repoRoot c) c)
            acc) q' = some (joinPath "" q') := by
    intro l
    induction l with
    | nil => intro acc hacc q'; exact hacc q'
    | cons c l ih =>
      intro acc hacc q'
      rw [List.foldl_cons]
      apply ih
      intro q''
      rw [pathAt_insertChange]
      by_cases hs : (pathAt acc q'').isSome
      · rw [if_pos hs]
        exact hacc q''
      · rw [if_neg hs]
        by_cases hl : listLead q'' (folderSegments repoRoot c) = true
        · rw [if_pos hl]
          right
          rfl
        · rw [if_neg hl]
          left
          rfl
  apply main
  intro q'
  cases q' with
  | nil => right; rfl
  | cons r qs => left; exact pathAt_fresh_cons _ _ _ _

theorem truthy_slash_append (a b : String) : truthy (a ++ "/" ++ b) = true := by
  have hlen : (a ++ "/" ++ b).length = a.length + 1 + b.length := by
    rw [String.length_append, String.length_append,
      show ("/" : String).length = 1 from rfl]
  unfold truthy
  simp only [bne_iff_ne, ne_eq, decide_eq_true_eq]
  intro h
  rw [h, show ("" : String).length = 0 from rfl] at hlen
  omega

theorem joinPath_truthy (parts : List String) :
    ∀ cp, truthy cp = true → joinPath cp parts = concatWithSlash (cp :: parts) := by
  induction parts with
  | nil => intro cp _; rfl
  | cons p ps ih =>
    intro cp h
    have hstep : childStep cp p = cp ++ "/" ++ p := by simp [childStep, h]
    have h2 : truthy (cp ++ "/" ++ p) = true := truthy_slash_append cp p
    have e1 : joinPath cp (p :: ps) = joinPath (childStep cp p) ps := rfl
    rw [e1, hstep, ih _ h2]
    cases ps with
    | nil => rfl
    | cons r rs =>
      show (cp ++ "/" ++ p) ++ "/" ++ concatWithSlash (r :: rs)
          = cp ++ "/" ++ (p ++ "/" ++ concatWithSlash (r :: rs))
      simp [String.append_assoc]

theorem joinPath_eq_concatWithSlash (parts : List String)
    (h : ∀ hd, parts.head? = some hd → truthy hd = true) :
    joinPath "" parts = concatWithSlash parts := by
  cases parts with
  | nil => rfl
  | cons p ps =>
    have hp : truthy p = true := h p rfl
    have e0 : joinPath "" (p :: ps) = joinPath p ps := by
      show joinPath (childStep "" p) ps = joinPath p ps
      rfl
    rw [e0, joinPath_truthy ps p hp]

/-! ## Claim theorem: folder tree construction (C1) -/

/-- Claim C1: every input changed file lands in exactly one node's files —
the node reached by walking its folder segments (the '/'- or '\'-split of
its root-relativized path, minus the file name) from the root; that node's
stored path is the `/`-concatenation of the ancestor folder names, and a
file with zero folder segments lands in the root node's files. -/
theorem buildFolderTree_correct (repoRoot : String) (changes : List Change) :
    (∀ q, filesAt (buildFolderTree repoRoot changes) q
        = changes.filter (fun c => folderSegments repoRoot c == q))
    ∧ (∀ c ∈ changes,
        (filesAt (buildFolderTree repoRoot changes) (folderSegments repoRoot c)).count c
            = changes.count c
          ∧ ∀ q, q ≠ folderSegments repoRoot c
              → c ∉ filesAt (buildFolderTree repoRoot changes) q)
    ∧ (∀ c ∈ changes,
        pathAt (buildFolderTree repoRoot changes) (folderSegments repoRoot c)
          = some (joinPath "" (folderSegments repoRoot c)))
    ∧ (∀ parts, (∀ hd, parts.head? = some hd → truthy hd = true)
        → joinPath "" parts = concatWithSlash parts)
    ∧ (∀ c ∈ changes, folderSegments repoRoot c = []
        → c ∈ (buildFolderTree repoRoot changes).files) := by
  refine ⟨filesAt_buildFolderTree repoRoot changes, ?_, ?_, ?_, ?_⟩
  · intro c hc
    constructor
    · rw [filesAt_buildFolderTree]
      refine List.count_filter ?_
      simp
    · intro q hq hmem
      rw [filesAt_buildFolderTree] at hmem
      have hbeq := (List.mem_filter.mp hmem).2
      exact absurd (eq_of_beq hbeq).symm hq
  · intro c hc
    have hmem : c ∈ filesAt (buildFolderTree repoRoot changes) (folderSegments repoRoot c) := by
      rw [filesAt_buildFolderTree]
      exact List.mem_filter.mpr ⟨hc, by simp⟩
    cases hw : walk (buildFolderTree repoRoot changes) (folderSegments repoRoot c) with
    | none =>
      rw [show filesAt (buildFolderTree repoRoot changes) (folderSegments repoRoot c) = []
        from by simp [filesAt, hw]] at hmem
      exact absurd hmem (List.not_mem_nil c)
    | some n =>
      have hp : pathAt (buildFolderTree repoRoot changes) (folderSegments repoRoot c)
          = some n.path := by simp [pathAt, hw]
      rcases pathAt_buildFolderTree repoRoot changes (folderSegments repoRoot c) with h | h
      · rw [hp] at h
        exact absurd h (by simp)
      · exact h
  · exact fun parts h => joinPath_eq_concatWithSlash parts h
  · intro c hc hseg
    have hmem : c ∈ filesAt (buildFolderTree repoRoot changes) [] := by
      rw [filesAt_buildFolderTree]
      exact List.mem_filter.mpr ⟨hc, by rw [hseg, beq_self_eq_true]⟩
    rwa [filesAt_nil] at hmem

theorem buildFolderTree_correct_witness :
    sampleB ∈ sampleChanges
    ∧ ((filesAt (buildFolderTree "/repo" sampleChanges)
            (folderSegments "/repo" sampleB)).count sampleB
          = sampleChanges.count sampleB
        ∧ ∀ q, q ≠ folderSegments "/repo" sampleB
            → sampleB ∉ filesAt (buildFolderTree "/repo" sampleChanges) q) :=
  ⟨by decide, (buildFolderTree_correct "/repo" sampleChanges).2.1 sampleB (by decide)⟩

/-! ## Comparator lemmas for the `lcStd` instantiation of `localeCompare` -/

theorem charsCmp_eq : ∀ xs ys : List Char, charsCmp xs ys = Ordering.eq → xs = ys := by
  intro xs
  induction xs with
  | nil =>
    intro ys h
    cases ys with
    | nil => rfl
    | cons b bs => simp [charsCmp] at h
  | cons a as ih =>
    intro ys h
    cases ys with
    | nil => simp [charsCmp] at h
    | cons b bs =>
      simp only [charsCmp] at h
      cases hab : compare a.toNat b.toNat with
      | eq =>
        rw [hab] at h
        have hn : a.toNat = b.toNat := Nat.compare_eq_eq.mp hab
        have ha : a = b := by
          have := congrArg Char.ofNat hn
          rwa [Char.ofNat_toNat, Char.ofNat_toNat] at this
        rw [ha, ih bs h]
      | lt => simp [hab] at h
      | gt => simp [hab] at h

theorem charsCmp_notGt_trans :
    ∀ xs ys zs : List Char, ordNotGt (charsCmp xs ys) = true →
      ordNotGt (charsCmp ys zs) = true → ordNotGt (charsCmp xs zs) = true := by
  intro xs
  induction xs with
  | nil =>
    intro ys zs _ _
    cases zs <;> simp [charsCmp, ordNotGt]
  | cons a as ih =>
    intro ys zs h1 h2
    cases ys with
    | nil => simp [charsCmp, ordNotGt] at h1
    | cons b bs =>
      cases zs with
      | nil => simp [charsCmp, ordNotGt] at h2
      | cons c cs =>
        simp only [charsCmp] at h1 h2 ⊢
        cases hab : compare a.toNat b.toNat with
        | gt => simp [hab, ordNotGt] at h1
        | eq =>
          simp only [hab] at h1
          have hnab : a.toNat = b.toNat := Nat.compare_eq_eq.mp hab
          cases hbc : compare b.toNat c.toNat with
          | gt => simp [hbc, ordNotGt] at h2
          | eq =>
            simp only [hbc] at h2
            have hnbc : b.toNat = c.toNat := Nat.compare_eq_eq.mp hbc
            have hac : compare a.toNat c.toNat = Ordering.eq :=
              Nat.compare_eq_eq.mpr (hnab.trans hnbc)
            rw [hac]
            exact ih bs cs h1 h2
          | lt =>
            have hnbc : b.toNat < c.toNat := Nat.compare_eq_lt.mp hbc
            have hac : compare a.toNat c.toNat = Ordering.lt :=
              Nat.compare_eq_lt.mpr (by omega)
            rw [hac]
            rfl
        | lt =>
          have hnab : a.toNat < b.toNat := Nat.compare_eq_lt.mp hab
          cases hbc : compare b.toNat c.toNat with
          | gt => simp [hbc, ordNotGt] at h2
          | eq =>
            have hnbc : b.toNat = c.toNat := Nat.compare_eq_eq.mp hbc
            have hac : compare a.toNat c.toNat = Ordering.lt :=
              Nat.compare_eq_lt.mpr (by omega)
            rw [hac]
            rfl
          | lt =>
            have hnbc : b.toNat < c.toNat := Nat.compare_eq_lt.mp hbc
            have hac : compare a.toNat c.toNat = Ordering.lt :=
              Nat.compare_eq_lt.mpr (by omega)
            rw [hac]
            rfl

theorem charsCmp_notGt_total :
    ∀ xs ys : List Char, (ordNotGt (charsCmp xs ys) || ordNotGt (charsCmp ys xs)) = true := by
  intro xs
  induction xs with
  | nil =>
    intro ys
    cases ys <;> simp [charsCmp, ordNotGt]
  | cons a as ih =>
    intro ys
    cases ys with
    | nil => simp [charsCmp, ordNotGt]
    | cons b bs =>
      simp only [charsCmp]
      cases hab : compare a.toNat b.toNat with
      | eq =>
        have hba : compare b.toNat a.toNat = Ordering.eq :=
          Nat.compare_eq_eq.mpr (Nat.compare_eq_eq.mp hab).symm
        rw [hba]
        exact ih bs
      | lt =>
        have hba : compare b.toNat a.toNat = Ordering.gt :=
          Nat.compare_eq_gt.mpr (Nat.compare_eq_lt.mp hab)
        rw [hba]
        rfl
      | gt =>
        have hba : compare b.toNat a.toNat = Ordering.lt :=
          Nat.compare_eq_lt.mpr (Nat.compare_eq_gt.mp hab)
        rw [hba]
        rfl

theorem lcStd_notGt_trans (a b c : String) :
    ordNotGt (lcStd a b) = true → ordNotGt (lcStd b c) = true →
      ordNotGt (lcStd a c) = true :=
  charsCmp_notGt_trans a.data b.data c.data

theorem lcStd_notGt_total (a b : String) :
    (ordNotGt (lcStd a b) || ordNotGt (lcStd b a)) = true :=
  charsCmp_notGt_total a.data b.data

theorem lcStd_eq_imp (a b : String) : lcStd a b = Ordering.eq → a = b := fun h =>
  congrArg String.mk (charsCmp_eq a.data b.data h)

/-! ## Display-item lemmas (towards C3, C4) -/

@[simp]
theorem folderDisplayItem_label (f : FolderNode) : (folderDisplayItem f).label = f.name := rfl

@[simp]
theorem folderDisplayItem_itemType (f : FolderNode) :
    (folderDisplayItem f).itemType = TreeItemType.folder := rfl

@[simp]
theorem fileDisplayItem_label (target : Option String) (source : SourceSelection) (c : Change) :
    (fileDisplayItem target source c).label = fileName c := rfl

@[simp]
theorem fileDisplayItem_itemType (target : Option String) (source : SourceSelection)
    (c : Change) : (fileDisplayItem target source c).itemType = TreeItemType.file := rfl

/-- `Array.from(children.values()).sort(...)` output is pairwise
non-descending under a transitive, total comparator. -/
theorem sortFolders_pairwise (lc : String → String → Ordering)
    (htrans : ∀ a b c, ordNotGt (lc a b) = true → ordNotGt (lc b c) = true →
        ordNotGt (lc a c) = true)
    (htotal : ∀ a b, (ordNotGt (lc a b) || ordNotGt (lc b a)) = true)
    (cs : List FolderNode) :
    (sortFolders lc cs).Pairwise (fun a b => ordNotGt (lc a.name b.name) = true) :=
  List.sorted_mergeSort (fun a b c hab hbc => htrans a.name b.name c.name hab hbc)
    (fun a b => htotal a.name b.name) cs

theorem sortChanges_pairwise (lc : String → String → Ordering)
    (htrans : ∀ a b c, ordNotGt (lc a b) = true → ordNotGt (lc b c) = true →
        ordNotGt (lc a c) = true)
    (htotal : ∀ a b, (ordNotGt (lc a b) || ordNotGt (lc b a)) = true)
    (fs : List Change) :
    (sortChanges lc fs).Pairwise
      (fun a b => ordNotGt (lc (fileSortName a) (fileSortName b)) = true) :=
  List.sorted_mergeSort (fun a b c hab hbc => htrans (fileSortName a) (fileSortName b)
      (fileSortName c) hab hbc)
    (fun a b => htotal (fileSortName a) (fileSortName b)) fs

/-! ## Claim theorem: display ordering (C3) -/

/-- Claim C3: `createTreeItems` lists all folder items before all file items
with no interleaving; folders are sorted ascending by name and files
ascending by the program's file-name sort key (`split('/').pop() || ''`)
under the (transitive, total) locale comparator, and with an antisymmetric
comparator and non-duplicate names each group is strictly ascending. -/
theorem createTreeItems_ordering (lc : String → String → Ordering)
    (htrans : ∀ a b c, ordNotGt (lc a b) = true → ordNotGt (lc b c) = true →
        ordNotGt (lc a c) = true)
    (htotal : ∀ a b, (ordNotGt (lc a b) || ordNotGt (lc b a)) = true)
    (target : Option String) (source : SourceSelection) (node : FolderNode) :
    ∃ (folderItems : List TreeItem) (sortedFiles : List Change),
      (createTreeItems lc target source node).1
        = folderItems ++ sortedFiles.map (fileDisplayItem target source)
      ∧ (∀ it ∈ folderItems, it.itemType = TreeItemType.folder)
      ∧ (∀ it ∈ sortedFiles.map (fileDisplayItem target source),
          it.itemType = TreeItemType.file)
      ∧ folderItems.Pairwise (fun x y => ordNotGt (lc x.label y.label) = true)
      ∧ sortedFiles.Pairwise
          (fun a b => ordNotGt (lc (fileSortName a) (fileSortName b)) = true)
      ∧ ((∀ a b, lc a b = Ordering.eq → a = b) →
          ((node.children.map FolderNode.name).Nodup →
            folderItems.Pairwise (fun x y => lc x.label y.label = Ordering.lt))
          ∧ ((node.files.map fileSortName).Nodup →
            sortedFiles.Pairwise
              (fun a b => lc (fileSortName a) (fileSortName b) = Ordering.lt))) := by
  refine ⟨(sortFolders lc node.children).map folderDisplayItem,
    sortChanges lc node.files, rfl, ?_, ?_, ?_, ?_, ?_⟩
  · intro it hit
    obtain ⟨f, _, rfl⟩ := List.mem_map.mp hit
    rfl
  · intro it hit
    obtain ⟨c, _, rfl⟩ := List.mem_map.mp hit
    rfl
  · rw [List.pairwise_map]
    exact (sortFolders_pairwise lc htrans htotal node.children).imp (fun h => by simpa using h)
  · exact sortChanges_pairwise lc htrans htotal node.files
  · intro heq
    constructor
    · intro hnodup
      rw [List.pairwise_map]
      have hperm : (sortFolders lc node.children).Perm node.children :=
        List.mergeSort_perm node.children _
      have hnodup2 : ((sortFolders lc node.children).map FolderNode.name).Nodup :=
        ((hperm.map FolderNode.name).nodup_iff).mpr hnodup
      have hne : (sortFolders lc node.children).Pairwise
          (fun a b => FolderNode.name a ≠ FolderNode.name b) :=
        List.pairwise_map.mp hnodup2
      have hle := sortFolders_pairwise lc htrans htotal node.children
      refine (hle.and hne).imp ?_
      intro a b hab
      obtain ⟨h1, h2⟩ := hab
      simp only [folderDisplayItem_label]
      cases hlc : lc a.name b.name with
      | lt => rfl
      | eq => exact absurd (heq _ _ hlc) h2
      | gt => rw [hlc] at h1; exact absurd h1 (by decide)
    · intro hnodup
      have hperm : (sortChanges lc node.files).Perm node.files :=
        List.mergeSort_perm node.files _
      have hnodup2 : ((sortChanges lc node.files).map fileSortName).Nodup :=
        ((hperm.map fileSortName).nodup_iff).mpr hnodup
      have hne : (sortChanges lc node.files).Pairwise
          (fun a b => fileSortName a ≠ fileSortName b) :=
        List.pairwise_map.mp hnodup2
      have hle := sortChanges_pairwise lc htrans htotal node.files
      refine (hle.and hne).imp ?_
      intro a b hab
      obtain ⟨h1, h2⟩ := hab
      cases hlc : lc (fileSortName a) (fileSortName b) with
      | lt => rfl
      | eq => exact absurd (heq _ _ hlc) h2
      | gt => rw [hlc] at h1; exact absurd h1 (by decide)

theorem createTreeItems_ordering_witness :
    (∀ a b c : String, ordNotGt (lcStd a b) = true → ordNotGt (lcStd b c) = true →
        ordNotGt (lcStd a c) = true)
    ∧ (∀ a b : String, (ordNotGt (lcStd a b) || ordNotGt (lcStd b a)) = true)
    ∧ ∃ (folderItems : List TreeItem) (sortedFiles : List Change),
        (createTreeItems lcStd (some "main") .workingTree sampleTree).1
            = folderItems ++ sortedFiles.map (fileDisplayItem (some "main") .workingTree)
        ∧ (∀ it ∈ folderItems, it.itemType = TreeItemType.folder)
        ∧ (∀ it ∈ sortedFiles.map (fileDisplayItem (some "main") .workingTree),
            it.itemType = TreeItemType.file)
        ∧ folderItems.Pairwise (fun x y => ordNotGt (lcStd x.label y.label) = true)
        ∧ sortedFiles.Pairwise
            (fun a b => ordNotGt (lcStd (fileSortName a) (fileSortName b)) = true)
        ∧ ((∀ a b, lcStd a b = Ordering.eq → a = b) →
            ((sampleTree.children.map FolderNode.name).Nodup →
              folderItems.Pairwise (fun x y => lcStd x.label y.label = Ordering.lt))
            ∧ ((sampleTree.files.map fileSortName).Nodup →
              sortedFiles.Pairwise
                (fun a b => lcStd (fileSortName a) (fileSortName b) = Ordering.lt))) :=
  ⟨lcStd_notGt_trans, lcStd_notGt_total,
   createTreeItems_ordering lcStd lcStd_notGt_trans lcStd_notGt_total (some "main")
     .workingTree sampleTree⟩

/-! ## Walk/update lemmas and claim C4 -/

theorem walk_cons_found (t : FolderNode) (p : String) (q : List String) (ch : FolderNode)
    (h : findChild t.children p = some ch) : walk t (p :: q) = walk ch q := by
  simp [walk, h]

theorem walk_cons_missing (t : FolderNode) (p : String) (q : List String)
    (h : findChild t.children p = none) : walk t (p :: q) = none := by
  simp [walk, h]

theorem updateAt_name_cons (t : FolderNode) (p : String) (rest : List String)
    (new : FolderNode) : (updateAt t (p :: rest) new).name = t.name := by
  cases hfc : findChild t.children p <;> simp [updateAt, hfc]

/-- Writing a node back at the position it was walked to makes the walk
return the new node (given the name is preserved). -/
theorem walk_updateAt (parts : List String) :
    ∀ (t n new : FolderNode), walk t parts = some n → new.name = n.name →
      walk (updateAt t parts new) parts = some new := by
  induction parts with
  | nil =>
    intro t n new _ _
    simp [updateAt, walk]
  | cons p rest ih =>
    intro t n new h hm
    cases hfc : findChild t.children p with
    | none =>
      rw [walk_cons_missing t p rest hfc] at h
      exact absurd h (by simp)
    | some ch =>
      rw [walk_cons_found t p rest ch hfc] at h
      have hchname : ch.name = p := findChild_name _ _ _ hfc
      have hupname : (updateAt ch rest new).name = p := by
        cases rest with
        | nil =>
          have hn : ch = n := by simpa [walk] using h
          simp [updateAt, hm, ← hn, hchname]
        | cons r rs =>
          rw [updateAt_name_cons, hchname]
      have hupd : updateAt t (p :: rest) new
          = FolderNode.mk t.name t.path (setChild t.children p (updateAt ch rest new))
              t.files := by
        simp [updateAt, hfc]
      rw [hupd]
      rw [walk_cons_found _ _ _ _ (by
        rw [FolderNode.children_mk]
        exact findChild_setChild_self _ _ _ hupname)]
      exact ih ch n new h hm

theorem sortChanges_idem (lc : String → String → Ordering)
    (htrans : ∀ a b c, ordNotGt (lc a b) = true → ordNotGt (lc b c) = true →
        ordNotGt (lc a c) = true)
    (htotal : ∀ a b, (ordNotGt (lc a b) || ordNotGt (lc b a)) = true)
    (fs : List Change) : sortChanges lc (sortChanges lc fs) = sortChanges lc fs :=
  List.mergeSort_of_sorted (sortChanges_pairwise lc htrans htotal fs)

/-- Claim C4: `getFolderChildren` locates the folder by walking the
'/'-split segments of `folderPath` from the root of the stored tree,
returns the empty sequence when the tree is absent or a segment is missing,
and re-invoking it with the same `folderPath` (the only state change being
its own in-place file sort) returns the identical item sequence. -/
theorem getFolderChildren_lookup_idempotent (lc : String → String → Ordering)
    (htrans : ∀ a b c, ordNotGt (lc a b) = true → ordNotGt (lc b c) = true →
        ordNotGt (lc a c) = true)
    (htotal : ∀ a b, (ordNotGt (lc a b) || ordNotGt (lc b a)) = true)
    (st : ProviderState) (folderPath : String) :
    (st.folderTree = none → getFolderChildren lc st folderPath = ([], st))
    ∧ (∀ tree, st.folderTree = some tree →
        walk tree (strSplit folderPath (fun ch => ch == '/')) = none →
        getFolderChildren lc st folderPath = ([], st))
    ∧ (∀ tree node, st.folderTree = some tree →
        walk tree (strSplit folderPath (fun ch => ch == '/')) = some node →
        (getFolderChildren lc st folderPath).1
          = (createTreeItems lc st.target st.source node).1)
    ∧ (getFolderChildren lc (getFolderChildren lc st folderPath).2 folderPath).1
        = (getFolderChildren lc st folderPath).1 := by
  refine ⟨?_, ?_, ?_, ?_⟩
  · intro h
    simp [getFolderChildren, h]
  · intro tree h hw
    simp [getFolderChildren, h, hw]
  · intro tree node h hw
    simp [getFolderChildren, h, hw]
  · cases hft : st.folderTree with
    | none => simp [getFolderChildren, hft]
    | some tree =>
      cases hw : walk tree (strSplit folderPath (fun ch => ch == '/')) with
      | none => simp [getFolderChildren, hft, hw]
      | some node =>
        have h1 : getFolderChildren lc st folderPath
            = ((createTreeItems lc st.target st.source node).1,
               { st with folderTree := some (updateAt tree
                  (strSplit folderPath (fun ch => ch == '/'))
                  (createTreeItems lc st.target st.source node).2) }) := by
          simp [getFolderChildren, hft, hw]
        have hw2 : walk (updateAt tree (strSplit folderPath (fun ch => ch == '/'))
              (createTreeItems lc st.target st.source node).2)
              (strSplit folderPath (fun ch => ch == '/'))
            = some (createTreeItems lc st.target st.source node).2 :=
          walk_updateAt _ tree node _ hw rfl
        rw [h1]
        have h2 : (getFolderChildren lc
            { st with folderTree := some (updateAt tree
                (strSplit folderPath (fun ch => ch == '/'))
                (createTreeItems lc st.target st.source node).2) } folderPath).1
            = (createTreeItems lc st.target st.source
                (createTreeItems lc st.target st.source node).2).1 := by
          simp [getFolderChildren, hw2]
        rw [h2]
        show (createTreeItems lc st.target st.source
            (FolderNode.mk node.name node.path node.children (sortChanges lc node.files))).1
          = (createTreeItems lc st.target st.source node).1
        simp only [createTreeItems, FolderNode.children_mk, FolderNode.files_mk]
        rw [sortChanges_idem lc htrans htotal]

theorem getFolderChildren_lookup_idempotent_witness :
    (∀ a b c : String, ordNotGt (lcStd a b) = true → ordNotGt (lcStd b c) = true →
        ordNotGt (lcStd a c) = true)
    ∧ (∀ a b : String, (ordNotGt (lcStd a b) || ordNotGt (lcStd b a)) = true)
    ∧ (getFolderChildren lcStd (getFolderChildren lcStd sampleLoadedState "src").2 "src").1
        = (getFolderChildren lcStd sampleLoadedState "src").1 :=
  ⟨lcStd_notGt_trans, lcStd_notGt_total,
   (getFolderChildren_lookup_idempotent lcStd lcStd_notGt_trans lcStd_notGt_total
     sampleLoadedState "src").2.2.2⟩

/-! ## Root-render characterization lemmas and claim C5 -/

theorem getRootItems_of_cached (lc : String → String → Ordering) (svc : GitService)
    (st : ProviderState) (t : String) (dr : DiffResult) (h1 : st.target = some t)
    (h2 : truthy t = true) (h3 : st.diffResult = some dr) :
    getRootItems lc svc st
      = (rootHeaderItems svc st
          ++ (renderDiffResult lc (repoRootOf svc) st.target st.source dr).1,
         (match (renderDiffResult lc (repoRootOf svc) st.target st.source dr).2 with
          | some tr => { st with folderTree := some tr }
          | none => st),
         []) := by
  simp [getRootItems, h1, h2, h3]

theorem getRootItems_of_fetch (lc : String → String → Ordering) (svc : GitService)
    (st : ProviderState) (t : String) (h1 : st.target = some t)
    (h2 : truthy t = true) (h3 : st.diffResult = none) :
    getRootItems lc svc st
      = (rootHeaderItems svc st
          ++ (renderDiffResult lc (repoRootOf svc) st.target st.source
              (getDiffWithConflictDetection svc st.source t).1).1,
         (match (renderDiffResult lc (repoRootOf svc) st.target st.source
              (getDiffWithConflictDetection svc st.source t).1).2 with
          | some tr =>
            { st with
              diffResult := some (getDiffWithConflictDetection svc st.source t).1,
              folderTree := some tr }
          | none =>
            { st with
              diffResult := some (getDiffWithConflictDetection svc st.source t).1 }),
         (getDiffWithConflictDetection svc st.source t).2) := by
  simp [getRootItems, h1, h2, h3]

/-- Claim C5: `setSource`/`setTarget`/`refresh` clear the cached diff result
and the materialized folder tree and fire the tree-data event; a root render
with no cached result issues exactly the collaborator calls of one fresh
fetch and caches its result; rendering again with the unchanged (source,
target) pair issues no collaborator call and returns the identical items. -/
theorem diff_cache_and_invalidation (lc : String → String → Ordering) (svc : GitService)
    (st : ProviderState) (t : String) :
    (∀ s, (setSource s st).diffResult = none ∧ (setSource s st).folderTree = none
      ∧ (setSource s st).treeDataEvents = st.treeDataEvents + 1)
    ∧ ((setTarget t st).diffResult = none ∧ (setTarget t st).folderTree = none
      ∧ (setTarget t st).treeDataEvents = st.treeDataEvents + 1)
    ∧ ((refresh st).diffResult = none ∧ (refresh st).folderTree = none
      ∧ (refresh st).treeDataEvents = st.treeDataEvents + 1)
    ∧ (st.target = some t → truthy t = true → st.diffResult = none →
        (getRootItems lc svc st).2.2 = (getDiffWithConflictDetection svc st.source t).2
        ∧ ((getRootItems lc svc st).2.1).diffResult
            = some (getDiffWithConflictDetection svc st.source t).1)
    ∧ (st.target = some t → truthy t = true →
        (getRootItems lc svc (getRootItems lc svc st).2.1).2.2 = []
        ∧ (getRootItems lc svc (getRootItems lc svc st).2.1).1
            = (getRootItems lc svc st).1) := by
  refine ⟨fun s => ⟨rfl, rfl, rfl⟩, ⟨rfl, rfl, rfl⟩, ⟨rfl, rfl, rfl⟩, ?_, ?_⟩
  · intro h1 h2 h3
    rw [getRootItems_of_fetch lc svc st t h1 h2 h3]
    cases hrd : (renderDiffResult lc (repoRootOf svc) st.target st.source
        (getDiffWithConflictDetection svc st.source t).1).2 <;>
      (simp only [hrd]; constructor <;> trivial)
  · intro h1 h2
    cases h3 : st.diffResult with
    | some dr =>
      rw [getRootItems_of_cached lc svc st t dr h1 h2 h3]
      cases hrd : (renderDiffResult lc (repoRootOf svc) st.target st.source dr).2 with
      | some tr =>
        simp only [hrd]
        rw [getRootItems_of_cached lc svc { st with folderTree := some tr } t dr
          (by simpa using h1) h2 (by simpa using h3)]
        constructor <;> trivial
      | none =>
        simp only [hrd]
        rw [getRootItems_of_cached lc svc st t dr h1 h2 h3]
        simp only [hrd]
        constructor <;> trivial
    | none =>
      rw [getRootItems_of_fetch lc svc st t h1 h2 h3]
      cases hrd : (renderDiffResult lc (repoRootOf svc) st.target st.source
          (getDiffWithConflictDetection svc st.source t).1).2 with
      | some tr =>
        simp only [hrd]
        rw [getRootItems_of_cached lc svc _ t (getDiffWithConflictDetection svc st.source t).1
          (by simpa using h1) h2 (by simp)]
        constructor <;> trivial
      | none =>
        simp only [hrd]
        rw [getRootItems_of_cached lc svc _ t (getDiffWithConflictDetection svc st.source t).1
          (by simpa using h1) h2 (by simp)]
        constructor <;> trivial

theorem diff_cache_and_invalidation_witness :
    sampleState.target = some "main"
    ∧ truthy "main" = true
    ∧ sampleState.diffResult = none
    ∧ ((getRootItems lcStd sampleService sampleState).2.2
        = (getDiffWithConflictDetection sampleService sampleState.source "main").2
      ∧ ((getRootItems lcStd sampleService sampleState).2.1).diffResult
          = some (getDiffWithConflictDetection sampleService sampleState.source "main").1)
    ∧ ((getRootItems lcStd sampleService
          (getRootItems lcStd sampleService sampleState).2.1).2.2 = []
      ∧ (getRootItems lcStd sampleService
          (getRootItems lcStd sampleService sampleState).2.1).1
          = (getRootItems lcStd sampleService sampleState).1) :=
  ⟨rfl, by decide, rfl,
   (diff_cache_and_invalidation lcStd sampleService sampleState "main").2.2.2.1 rfl
     (by decide) rfl,
   (diff_cache_and_invalidation lcStd sampleService sampleState "main").2.2.2.2 rfl
     (by decide)⟩

/-! ## Claim theorems: selection state (C6) -/

/-- Claim C6: the initial selection is source = WorkingTree with no target,
and whenever the target is unset `getRootItems` returns exactly the Source
and Target selector items — no separator, folder or file items — and issues
no collaborator call. -/
theorem initial_state_and_no_target (lc : String → String → Ordering) (svc : GitService)
    (st : ProviderState) :
    initialProviderState.source = SourceSelection.workingTree
    ∧ initialProviderState.target = none
    ∧ (st.target = none →
        getRootItems lc svc st = (rootHeaderItems svc st, st, [])
          ∧ (rootHeaderItems svc st).map TreeItem.itemType
              = [TreeItemType.source, TreeItemType.target]
          ∧ ∀ it ∈ (getRootItems lc svc st).1,
              it.itemType = TreeItemType.source ∨ it.itemType = TreeItemType.target) := by
  refine ⟨rfl, rfl, fun h => ?_⟩
  have heq : getRootItems lc svc st = (rootHeaderItems svc st, st, []) := by
    simp [getRootItems, h]
  refine ⟨heq, by simp [rootHeaderItems, mkBranchTreeItem], ?_⟩
  rw [heq]
  simp [rootHeaderItems, mkBranchTreeItem]

theorem initial_state_and_no_target_witness :
    initialProviderState.target = none
    ∧ (getRootItems lcStd sampleService initialProviderState
        = (rootHeaderItems sampleService initialProviderState, initialProviderState, [])
      ∧ (rootHeaderItems sampleService initialProviderState).map TreeItem.itemType
          = [TreeItemType.source, TreeItemType.target]
      ∧ ∀ it ∈ (getRootItems lcStd sampleService initialProviderState).1,
          it.itemType = TreeItemType.source ∨ it.itemType = TreeItemType.target) :=
  ⟨rfl, (initial_state_and_no_target lcStd sampleService initialProviderState).2.2 rfl⟩

end BranchDiff
